import Mathlib

/-!
# synheart-cli: the `internal/cli` presentation layer and the scenario engine contract

A shallow embedding of the Go package `internal/cli` (root.go, config.go, ui.go,
completion.go, list_scenarios.go, describe.go, doctor.go, version.go).

Conventions of the embedding:

* a Go `string` is the list of its runes (`Str`); the strings handled are valid UTF-8,
  so byte-wise comparison (`sort.Strings`) is lexicographic comparison of code points;
* an `io.Writer` is the text written to it so far; writing appends;
* an `error` is its message together with the messages of the errors it wraps;
* functions of the Go standard library are written out where they are small
  (`strings.TrimSpace`, `strconv.Quote`, padding of `%-20s`), and their large Unicode
  tables are parameters (`UnicodeTables`).
-/

namespace Synheart

/-- A Go string, as the list of its runes. -/
abbrev Str := List Char

/-! ## Pieces of the Go standard library used by the package -/

/-- Tables of the Go standard library that are not written out here. -/
structure UnicodeTables where
  /-- `unicode.ToLower` on runes above ASCII. -/
  toLowerHi : Char → Char
  /-- `strconv.IsPrint` on runes above Latin-1. -/
  isPrintHi : Char → Bool

/-- Stand-in tables for evaluating the code on ASCII strings, where neither table is
consulted. -/
def asciiTables : UnicodeTables := ⟨fun c => c, fun _ => true⟩

/-- `unicode.IsSpace`: the Latin-1 spaces, and above Latin-1 the `White_Space` table. -/
def isSpace (c : Char) : Bool :=
  let n := c.toNat
  if n ≤ 0xFF then
    n == 0x09 || n == 0x0A || n == 0x0B || n == 0x0C || n == 0x0D || n == 0x20
      || n == 0x85 || n == 0xA0
  else
    n == 0x1680 || (0x2000 ≤ n && n ≤ 0x200A) || n == 0x2028 || n == 0x2029
      || n == 0x202F || n == 0x205F || n == 0x3000

/-- `strings.TrimSpace`: drop the leading and the trailing white space. -/
def TrimSpace (s : Str) : Str :=
  ((s.dropWhile isSpace).reverse.dropWhile isSpace).reverse

/-- `unicode.ToLower`: ASCII capitals are shifted, other ASCII runes are kept, the rest
goes through the case tables. -/
def toLowerRune (T : UnicodeTables) (c : Char) : Char :=
  if c.toNat ≤ 0x7F then
    if 'A'.toNat ≤ c.toNat ∧ c.toNat ≤ 'Z'.toNat then Char.ofNat (c.toNat + 32) else c
  else T.toLowerHi c

/-- `strings.ToLower`. -/
def ToLower (T : UnicodeTables) (s : Str) : Str := s.map (toLowerRune T)

/-- `strconv.IsPrint`. -/
def IsPrint (T : UnicodeTables) (c : Char) : Bool :=
  let n := c.toNat
  if n ≤ 0xFF then
    if 0x20 ≤ n ∧ n ≤ 0x7E then true
    else if 0xA1 ≤ n then n != 0xAD
    else false
  else T.isPrintHi c

/-- One digit of `lowerhex`. -/
def lowerhex (n : Nat) : Char := (Nat.toDigits 16 (n % 16)).headD '0'

/-- The hexadecimal digits of `n` selected by the shifts `4*(k-1), ..., 4, 0`. -/
def hexDigits : Nat → Nat → Str
  | 0, _ => []
  | k + 1, n => lowerhex (n / 16 ^ k) :: hexDigits k n

/-- `strconv.appendEscapedRune` with quote `"` and neither `ASCIIonly` nor
`graphicOnly`. -/
def appendEscapedRune (T : UnicodeTables) (c : Char) : Str :=
  if c = '"' ∨ c = '\\' then ['\\', c]
  else if IsPrint T c then [c]
  else if c.toNat = 0x07 then ['\\', 'a']
  else if c.toNat = 0x08 then ['\\', 'b']
  else if c.toNat = 0x0C then ['\\', 'f']
  else if c.toNat = 0x0A then ['\\', 'n']
  else if c.toNat = 0x0D then ['\\', 'r']
  else if c.toNat = 0x09 then ['\\', 't']
  else if c.toNat = 0x0B then ['\\', 'v']
  else if c.toNat < 0x20 ∨ c.toNat = 0x7F then '\\' :: 'x' :: hexDigits 2 c.toNat
  else if c.toNat < 0x10000 then '\\' :: 'u' :: hexDigits 4 c.toNat
  else '\\' :: 'U' :: hexDigits 8 c.toNat

/-- `strconv.Quote`, which is what the verb `%q` prints for a string. -/
def Quote (T : UnicodeTables) (s : Str) : Str :=
  '"' :: (s.flatMap (appendEscapedRune T)) ++ ['"']

/-- A Go `error`: its message and the messages of the chain of errors it wraps. -/
structure GoError where
  msg : Str
  chain : List Str
  deriving DecidableEq, Repr

/-- `errors.New` and `fmt.Errorf` without `%w`: an error that wraps nothing. -/
def GoError.new (msg : Str) : GoError := ⟨msg, []⟩

/-- `fmt.Errorf(prefix + "%w", e)`: the message is prefixed and `e` is wrapped. -/
def GoError.wrap (pre : Str) (e : GoError) : GoError := ⟨pre ++ e.msg, e.msg :: e.chain⟩

/-- `strconv.Itoa`, which is what `%d` prints for an `int`. -/
def itoa (i : Int) : Str :=
  if i < 0 then '-' :: Nat.toDigits 10 i.natAbs else Nat.toDigits 10 i.natAbs

/-- An operand of type `any` handed to package `fmt`. -/
inductive Any
  | str (s : Str)
  | int (i : Int)
  | err (e : GoError)
  /-- A `[]string`. -/
  | strs (l : List Str)
  /-- Any other value, given by what `%v` prints for it. -/
  | other (v : Str)
  deriving DecidableEq, Repr

/-- What `%v` prints for a `[]string`: the elements between brackets, separated by
spaces. -/
def fmtStrings (l : List Str) : Str := '[' :: (List.intercalate [' '] l) ++ [']']

/-- What `%v` prints for an operand. -/
def fmtV : Any → Str
  | .str s => s
  | .int i => itoa i
  | .err e => e.msg
  | .strs l => fmtStrings l
  | .other v => v

/-- `fmt.Sprintln`: the operands printed with `%v`, a space between any two, and a
newline. -/
def Sprintln (args : List Any) : Str := List.intercalate [' '] (args.map fmtV) ++ ['\n']

/-- Padding to a width counted in runes: on the right with the `-` flag (`%-20s`), on
the left without it. -/
def padTo (minus : Bool) (w : Nat) (s : Str) : Str :=
  if minus then s ++ List.replicate (w - s.length) ' '
  else List.replicate (w - s.length) ' ' ++ s

/-- The part of a formatting directive read so far: after `%`, an optional `-` flag
and the digits of a width. -/
structure Directive where
  minus : Bool
  wid : Option Nat
  deriving DecidableEq, Repr

/-- `fmt.pad` under a directive. -/
def Directive.pad (d : Directive) (s : Str) : Str :=
  match d.wid with
  | none => s
  | some w => padTo d.minus w s

def isDigit (c : Char) : Bool := '0'.toNat ≤ c.toNat && c.toNat ≤ '9'.toNat

/-- What one directive prints for its operand, for the verbs `s`, `v`, `d`, `q` on the
operands they are good for; `none` for every other pairing (Go prints a `%!verb(...)`
note there, which is left to `sprintfRest`). -/
def fmtArg (T : UnicodeTables) (d : Directive) (verb : Char) : Any → Option Str
  | .str s =>
    if verb = 's' ∨ verb = 'v' then some (d.pad s)
    else if verb = 'q' then some (d.pad (Quote T s))
    else none
  | .int i => if verb = 'd' ∨ verb = 'v' then some (d.pad (itoa i)) else none
  | .err e => if verb = 's' ∨ verb = 'v' then some (d.pad e.msg) else none
  | .strs l => if (verb = 's' ∨ verb = 'v') ∧ d.wid = none then some (fmtStrings l) else none
  | .other v => if verb = 'v' ∧ d.wid = none then some v else none

/-- `fmt.Sprintf` on the fragment of formats written out here: plain text, `%%`, and
directives `%[-][width]verb` with a width of at most 1000000 and verb `s`, `v`, `d` or
`q`, each consuming one operand it is good for, with no operand missing or left over.
The first argument is the directive being read, `none` between directives. Outside the
fragment the result is `none`. -/
def sprintfGo (T : UnicodeTables) : Option Directive → Str → List Any → Option Str
  | none, [], [] => some []
  | none, [], _ :: _ => none
  | none, c :: f, args =>
    if c = '%' then sprintfGo T (some ⟨false, none⟩) f args
    else (sprintfGo T none f args).map (fun r => c :: r)
  | some _, [], _ => none
  | some d, c :: f, args =>
    if c = '%' then
      if d = ⟨false, none⟩ then (sprintfGo T none f args).map (fun r => '%' :: r) else none
    else if c = '-' ∧ d = ⟨false, none⟩ then sprintfGo T (some ⟨true, none⟩) f args
    else if isDigit c ∧ (c ≠ '0' ∨ d.wid ≠ none) then
      if d.wid.getD 0 * 10 + (c.toNat - '0'.toNat) > 1000000 then none
      else sprintfGo T (some { d with wid := some (d.wid.getD 0 * 10 + (c.toNat - '0'.toNat)) })
        f args
    else
      match args with
      | [] => none
      | a :: as =>
        match fmtArg T d c a with
        | none => none
        | some s => (sprintfGo T none f as).map (fun r => s ++ r)

/-- Package `fmt` as the UI uses it: the Unicode tables behind `%q`, and `fmt.Sprintf`
on the formats outside the fragment of `sprintfGo`. -/
structure Fmt where
  tables : UnicodeTables
  sprintfRest : Str → List Any → Str

/-- `fmt.Sprintf`. -/
def Sprintf (F : Fmt) (format : Str) (args : List Any) : Str :=
  match sprintfGo F.tables none format args with
  | some r => r
  | none => F.sprintfRest format args

/-- An instance of `Fmt` for evaluating calls whose formats stay within the fragment
of `sprintfGo` and whose strings stay within ASCII, where no field of it is reached. -/
def asciiFmt : Fmt := ⟨asciiTables, fun format _ => format⟩

/-! ## config.go and ui.go -/

/-- `GlobalOptions`: the shared flags. -/
structure GlobalOptions where
  Format : Str
  NoColor : Bool
  Quiet : Bool
  Verbose : Bool
  deriving DecidableEq, Repr

/-- The initial `globalOpts` with the flag defaults of `initRootFlags`. -/
def globalOptsDefault : GlobalOptions := ⟨"text".toList, false, false, false⟩

/-- `UI`: the two writers (the text written so far) and the three settings. -/
structure UI where
  out : Str
  err : Str
  colorEnabled : Bool
  quiet : Bool
  verbose : Bool
  deriving DecidableEq, Repr

/-- What `NewUI` reads from the process: whether stdout is a character device and the
value of `TERM`. -/
structure TermEnv where
  stdoutIsTTY : Bool
  term : Str

/-- `NewUI`. -/
def NewUI (env : TermEnv) (out err : Str) (noColor quiet verbose : Bool) : UI :=
  { out := out, err := err,
    colorEnabled := env.stdoutIsTTY && !noColor && (env.term != "dumb".toList),
    quiet := quiet, verbose := verbose }

/-- `UI.wrap`. -/
def UI.wrap (u : UI) (code : Str) (s : Str) : Str :=
  if !u.colorEnabled then s
  else if s.contains '\n' then s
  else [Char.ofNat 0x1b, '['] ++ code ++ ['m'] ++ s ++ [Char.ofNat 0x1b, '[', '0', 'm']

def UI.bold (u : UI) (s : Str) : Str := u.wrap "1".toList s
def UI.dim (u : UI) (s : Str) : Str := u.wrap "2".toList s
def UI.red (u : UI) (s : Str) : Str := u.wrap "31".toList s
def UI.green (u : UI) (s : Str) : Str := u.wrap "32".toList s
def UI.yellow (u : UI) (s : Str) : Str := u.wrap "33".toList s
def UI.cyan (u : UI) (s : Str) : Str := u.wrap "36".toList s

/-- `UI.Header`. -/
def UI.Header (u : UI) (title : Str) : UI :=
  if u.quiet then u else { u with out := u.out ++ Sprintln [.str (u.bold title)] }

/-- `UI.Section`. -/
def UI.Section (u : UI) (title : Str) : UI :=
  if u.quiet then u else { u with out := u.out ++ Sprintln [.str (u.cyan title)] }

/-- `UI.KV`: the format is the constant `"%-14s %v\n"`. -/
def UI.KV (u : UI) (key : Str) (value : Any) : UI :=
  if u.quiet then u
  else { u with out := u.out ++ (padTo true 14 (key ++ [':']) ++ [' '] ++ fmtV value ++ ['\n']) }

/-- `UI.Printf`. -/
def UI.Printf (F : Fmt) (u : UI) (format : Str) (args : List Any) : UI :=
  if u.quiet then u else { u with out := u.out ++ Sprintf F format args }

/-- `UI.Println`. -/
def UI.Println (u : UI) (args : List Any) : UI :=
  if u.quiet then u else { u with out := u.out ++ Sprintln args }

/-- `UI.Debugf`. -/
def UI.Debugf (F : Fmt) (u : UI) (format : Str) (args : List Any) : UI :=
  if !u.verbose then u
  else { u with err := u.err ++ Sprintf F (u.dim "debug: ".toList ++ format ++ ['\n']) args }

/-- `UI.Warnf`. -/
def UI.Warnf (F : Fmt) (u : UI) (format : Str) (args : List Any) : UI :=
  if u.quiet then u
  else { u with err := u.err ++ Sprintf F (u.yellow "warn: ".toList ++ format ++ ['\n']) args }

/-- `UI.Errorf`. -/
def UI.Errorf (F : Fmt) (u : UI) (format : Str) (args : List Any) : UI :=
  { u with err := u.err ++ Sprintf F (u.red "error: ".toList ++ format ++ ['\n']) args }

/-- `UI.Successf`. -/
def UI.Successf (F : Fmt) (u : UI) (format : Str) (args : List Any) : UI :=
  if u.quiet then u
  else { u with out := u.out ++ Sprintf F (u.green "ok: ".toList ++ format ++ ['\n']) args }

/-- `UI.PrintJSON`, given the outcome of marshalling and indenting the value: on
success the document and a newline are written, on failure nothing is. -/
def UI.PrintJSON (u : UI) (doc : Except GoError Str) : UI × Option GoError :=
  match doc with
  | .ok d => ({ u with out := u.out ++ d ++ ['\n'] }, none)
  | .error e => (u, some e)

/-! ## root.go: the persistent pre-run hook -/

/-- The process state written by the pre-run hook, with the error it returns. -/
structure PreRun where
  opts : GlobalOptions
  ui : UI
  err : Option GoError

/-- `rootCmd.PersistentPreRunE`: build the UI on the command's writers, normalise
`globalOpts.Format`, reject anything but `text` and `json`. -/
def persistentPreRunE (T : UnicodeTables) (env : TermEnv) (opts : GlobalOptions)
    (out er : Str) : PreRun :=
  let ui := NewUI env out er opts.NoColor opts.Quiet opts.Verbose
  let n := ToLower T (TrimSpace opts.Format)
  let fmt := if n = [] then "text".toList else n
  let opts1 := { opts with Format := fmt }
  if fmt ≠ "text".toList ∧ fmt ≠ "json".toList then
    { opts := opts1, ui := ui,
      err := some (GoError.new
        ("invalid --format ".toList ++ Quote T fmt ++ " (expected: text|json)".toList)) }
  else
    { opts := opts1, ui := ui, err := none }

/-! ## encoding/json with `SetIndent("", "  ")` -/

/-- A value as `encoding/json` sees it. -/
inductive Json
  | null
  | bool (b : Bool)
  | num (i : Int)
  | str (s : Str)
  | arr (l : List Json)
  | obj (l : List (Str × Json))

/-- Indentation of depth `n`. -/
def indent (n : Nat) : Str := List.replicate (2 * n) ' '

mutual
/-- The indented encoding of a value at depth `d`; `js` is the encoding of a string
value. The keys of an object are the names of struct fields and map keys made of ASCII
letters and `_`, which the encoder writes between double quotes. -/
def Json.render (js : Str → Str) (d : Nat) : Json → Str
  | .null => "null".toList
  | .bool b => if b then "true".toList else "false".toList
  | .num i => itoa i
  | .str s => js s
  | .arr [] => "[]".toList
  | .arr (x :: xs) =>
    '[' :: '\n' :: indent (d + 1) ++ Json.render js (d + 1) x
      ++ Json.renderElems js (d + 1) xs ++ '\n' :: indent d ++ [']']
  | .obj [] => [Char.ofNat 0x7b, Char.ofNat 0x7d]
  | .obj ((k, v) :: xs) =>
    Char.ofNat 0x7b :: '\n' :: indent (d + 1) ++ '"' :: k ++ '"' :: ':' :: ' '
      :: Json.render js (d + 1) v
      ++ Json.renderFields js (d + 1) xs ++ '\n' :: indent d ++ [Char.ofNat 0x7d]
/-- The elements of an array after the first. -/
def Json.renderElems (js : Str → Str) (d : Nat) : List Json → Str
  | [] => []
  | x :: xs => ',' :: '\n' :: indent d ++ Json.render js d x ++ Json.renderElems js d xs
/-- The fields of an object after the first. -/
def Json.renderFields (js : Str → Str) (d : Nat) : List (Str × Json) → Str
  | [] => []
  | (k, v) :: xs =>
    ',' :: '\n' :: indent d ++ '"' :: k ++ '"' :: ':' :: ' ' :: Json.render js d v
      ++ Json.renderFields js d xs
end

/-! ## Package `scenario`, as package `cli` uses it -/

/-- A `float64` as `describe` observes it: whether it is zero, and what `%.1f` prints
for it. -/
structure F64 where
  isZero : Bool
  fixed1 : Str

/-- `scenario.Override`, with the fields `describe` reads. -/
structure Override where
  Add : F64
  Multiply : F64
  Value : Str
  Baseline : Option Any
  Noise : Option Any

/-- `scenario.SignalConfig`, with the fields `describe` reads. -/
structure SignalConfig where
  Baseline : Option Any
  Noise : Option Any
  Rate : Str
  Unit : Str

/-- `scenario.Phase`; the map `Overrides` is listed in the order the run iterates it. -/
structure Phase where
  Name : Str
  Duration : Str
  Overrides : List (Str × Override)

/-- `scenario.Scenario`; the map `Signals` is listed in the order the run iterates it. -/
structure Scenario where
  Name : Str
  Description : Str
  Duration : Str
  DefaultRate : Str
  Signals : List (Str × SignalConfig)
  Phases : List Phase

/-- A loaded `scenario.Registry`, by the answers of its methods. `list` is `List()`
(`none` is the nil slice), `listWithDescriptions` is the map returned by
`ListWithDescriptions()` in the order the run iterates it, `get` is `Get`. -/
structure Registry where
  list : Option (List Str)
  listWithDescriptions : List (Str × Str)
  get : Str → Except GoError Scenario

/-- The encoders of `encoding/json` that are not written out: string literals, and
the indented document of the payload of `describe` (the struct tags of `SignalConfig`
and `Phase` are declared in package `scenario`). -/
structure JsonEnc where
  jsonString : Str → Str
  scenario : Scenario → Except GoError Str

/-- An instance of `JsonEnc` for evaluating the commands on ASCII letters and digits,
which `encoding/json` copies between quotes. -/
def asciiJson : JsonEnc := ⟨fun s => '"' :: s ++ ['"'], fun _ => .ok "null".toList⟩

/-! ## The writers of a running command -/

/-- Where a command writes. After the pre-run hook the package variable `ui` is set
and `cmd.OutOrStdout()` is the writer `ui.out` (`ui`); when `ui` is nil there is only
the command's own out writer (`bare`). -/
inductive Console
  | ui (u : UI)
  | bare (out : Str)

/-- The text written to `cmd.OutOrStdout()` so far. -/
def Console.out : Console → Str
  | .ui u => u.out
  | .bare o => o

/-- `fmt.Fprint(cmd.OutOrStdout(), s)`. -/
def Console.print (c : Console) (s : Str) : Console :=
  match c with
  | .ui u => .ui { u with out := u.out ++ s }
  | .bare o => .bare (o ++ s)

/-- The two ways the commands emit JSON, `ui.PrintJSON(v)` when `ui` is set and an
indenting encoder on `cmd.OutOrStdout()` otherwise. -/
def Console.encodeJSON (c : Console) (doc : Except GoError Str) : Console × Option GoError :=
  match c with
  | .ui u => ((Console.ui (u.PrintJSON doc).1), (u.PrintJSON doc).2)
  | .bare o =>
    match doc with
    | .ok d => (.bare (o ++ d ++ ['\n']), none)
    | .error e => (.bare o, some e)

/-! ## list_scenarios.go -/

/-- `sort.Strings`: the names are distinct map keys, so the result is the one
ascending arrangement, here computed by insertion. -/
def sortStrings (names : List Str) : List Str := names.insertionSort (fun a b => a ≤ b)

/-- `m[name]` on a `map[string]string`: the value, or the empty string. -/
def mapIndex (m : List (Str × Str)) (name : Str) : Str := (m.lookup name).getD []

/-- The slice `out` of rows built by the JSON branch. -/
def listRows (scenarios : List (Str × Str)) : List (Str × Str) :=
  (sortStrings (scenarios.map Prod.fst)).map (fun name => (name, mapIndex scenarios name))

/-- The rows as the value handed to the encoder. -/
def rowsJson (rows : List (Str × Str)) : Json :=
  .arr (rows.map (fun r => .obj [("name".toList, .str r.1), ("description".toList, .str r.2)]))

/-- One line of the text listing: the format is `"  %-20s %s\n"`. -/
def listLine (name description : Str) : Str :=
  "  ".toList ++ padTo true 20 name ++ [' '] ++ description ++ ['\n']

/-- The heading of the text listing: through `ui.Header` and `ui.Println` when `ui` is
set, written to the command's out writer otherwise. -/
def listHeading (c : Console) : Console :=
  match c with
  | .ui u => Console.ui ((u.Header "Available scenarios".toList).Println [])
  | .bare o => Console.bare (o ++ "Available scenarios:\n".toList ++ ['\n'])

/-- `runListScenarios`, given the outcome of `LoadFromDir`. -/
def runListScenarios (J : JsonEnc) (opts : GlobalOptions) (load : Except GoError Registry)
    (c : Console) : Console × Option GoError :=
  match load with
  | .error e => (c, some (GoError.wrap "failed to load scenarios: ".toList e))
  | .ok registry =>
    let scenarios := registry.listWithDescriptions
    if scenarios.length = 0 then
      (c.print "No scenarios found\n".toList, none)
    else if opts.Format = "json".toList then
      c.encodeJSON (.ok (Json.render J.jsonString 0 (rowsJson (listRows scenarios))))
    else
      let names := sortStrings (scenarios.map Prod.fst)
      let c1 := listHeading c
      let c2 := names.foldl (fun c name => c.print (listLine name (mapIndex scenarios name))) c1
      (c2.print ['\n'], none)

/-! ## describe.go -/

/-- The lines `describe` prints for one signal. -/
def signalText (name : Str) (config : SignalConfig) : Str :=
  "  ".toList ++ name ++ ['\n']
    ++ (match config.Baseline with
        | some b => "    Baseline: ".toList ++ fmtV b ++ ['\n']
        | none => [])
    ++ (match config.Noise with
        | some n => "    Noise: ".toList ++ fmtV n ++ ['\n']
        | none => [])
    ++ (if config.Rate ≠ [] then "    Rate: ".toList ++ config.Rate ++ ['\n'] else [])
    ++ (if config.Unit ≠ [] then "    Unit: ".toList ++ config.Unit ++ ['\n'] else [])

/-- The line `describe` prints for one override of a phase. -/
def overrideText (signal : Str) (override : Override) : Str :=
  "       ".toList ++ signal ++ [':']
    ++ (if !override.Add.isZero then " add=".toList ++ override.Add.fixed1 else [])
    ++ (if !override.Multiply.isZero then " multiply=".toList ++ override.Multiply.fixed1
        else [])
    ++ (if override.Value ≠ [] then " value=".toList ++ override.Value else [])
    ++ (match override.Baseline with
        | some b => " baseline=".toList ++ fmtV b
        | none => [])
    ++ (match override.Noise with
        | some n => " noise=".toList ++ fmtV n
        | none => [])
    ++ ['\n']

/-- The lines `describe` prints for the phase at index `i`. -/
def phaseText (i : Nat) (phase : Phase) : Str :=
  "  ".toList ++ itoa (i + 1) ++ ". ".toList ++ phase.Name ++ " (duration: ".toList
    ++ phase.Duration ++ ")\n".toList
    ++ (if phase.Overrides.length > 0 then
          "     Overrides:\n".toList
            ++ phase.Overrides.flatMap (fun so => overrideText so.1 so.2)
        else [])

/-- The lines of the phases from index `i` on. -/
def phasesText : Nat → List Phase → Str
  | _, [] => []
  | i, p :: ps => phaseText i p ++ phasesText (i + 1) ps

/-- `runDescribe` on the argument `scenarioName`, given the outcome of `LoadFromDir`. -/
def runDescribe (J : JsonEnc) (opts : GlobalOptions) (load : Except GoError Registry)
    (scenarioName : Str) (c : Console) : Console × Option GoError :=
  match load with
  | .error e => (c, some (GoError.wrap "failed to load scenarios: ".toList e))
  | .ok registry =>
    match registry.get scenarioName with
    | .error e => (c, some (GoError.wrap "scenario not found: ".toList e))
    | .ok scen =>
      if opts.Format = "json".toList then
        c.encodeJSON (J.scenario scen)
      else
        let c1 :=
          match c with
          | .ui u =>
            Console.ui ((((((u.Header "Scenario".toList).KV "Name".toList (.str scen.Name)).KV
              "Description".toList (.str scen.Description)).KV
              "Duration".toList (.str scen.Duration)).KV
              "Default rate".toList (.str scen.DefaultRate)).Println [])
          | .bare o =>
            Console.bare (o ++ "Scenario: ".toList ++ scen.Name ++ ['\n']
              ++ "Description: ".toList ++ scen.Description ++ ['\n']
              ++ "Duration: ".toList ++ scen.Duration ++ ['\n']
              ++ "Default Rate: ".toList ++ scen.DefaultRate ++ ['\n', '\n'])
        let c2 :=
          match c1 with
          | .ui u => Console.ui (u.Section "Signals".toList)
          | .bare o => Console.bare (o ++ "Signals:\n".toList)
        let c3 := c2.print (scen.Signals.flatMap (fun nc => signalText nc.1 nc.2))
        let c4 :=
          if scen.Phases.length > 0 then
            (c3.print "\nPhases:\n".toList).print (phasesText 0 scen.Phases)
          else c3
        (c4.print ['\n'], none)

/-! ## doctor.go -/

/-- What `doctor` reads from the machine: the `runtime` constants, `getScenarioDir()`,
whether `os.Stat` finds that directory, the outcome of `LoadFromDir` on it, and
whether `net.Listen("tcp", addr)` succeeds. -/
structure Machine where
  goVersion : Str
  goos : Str
  goarch : Str
  scenariosDir : Str
  statOk : Bool
  load : Except GoError Registry
  listen : Str → Bool

/-- `isPortAvailable`. -/
def isPortAvailable (m : Machine) (host : Str) (port : Int) : Bool :=
  m.listen (host ++ [':'] ++ itoa port)

/-- A `[]string` as the encoder sees it: `null` for the nil slice. -/
def stringsJson : Option (List Str) → Json
  | none => .null
  | some l => .arr (l.map Json.str)

/-- The connection examples printed at the end of the text report. -/
def connectionExamples (T : UnicodeTables) (wsURL : Str) : Str :=
  ['\n']
    ++ "JavaScript/Node.js:\n".toList
    ++ "  const ws = new WebSocket('".toList ++ wsURL ++ "');\n".toList
    ++ "  ws.onmessage = (event) => \x7b\n".toList
    ++ "    const data = JSON.parse(event.data);\n".toList
    ++ "    console.log(data);\n".toList
    ++ "  \x7d;\n".toList
    ++ ['\n']
    ++ "Python:\n".toList
    ++ "  import websocket\n".toList
    ++ "  import json\n".toList
    ++ "  ws = websocket.WebSocket()\n".toList
    ++ "  ws.connect('".toList ++ wsURL ++ "')\n".toList
    ++ "  while True:\n".toList
    ++ "    data = json.loads(ws.recv())\n".toList
    ++ "    print(data)\n".toList
    ++ ['\n']
    ++ "Go:\n".toList
    ++ "  conn, _, err := websocket.DefaultDialer.Dial(".toList ++ Quote T wsURL
    ++ ", nil)\n".toList
    ++ "  for \x7b\n".toList
    ++ "    _, message, err := conn.ReadMessage()\n".toList
    ++ "    // decode message into your Event type\n".toList
    ++ "    _ = message\n".toList
    ++ "    _ = err\n".toList
    ++ "  \x7d\n".toList
    ++ ['\n']

/-- `runDoctor` with the flags `--host` and `--port`. -/
def runDoctor (F : Fmt) (J : JsonEnc) (opts : GlobalOptions) (m : Machine)
    (doctorHost : Str) (doctorPort : Int) (c : Console) : Console × Option GoError :=
  let text : Bool := opts.Format = "text".toList
  let c1 :=
    if text then
      match c with
      | .ui u => Console.ui ((u.Header "Synheart doctor".toList).Println [])
      | .bare o => Console.bare (o ++ "Synheart doctor\n".toList ++ ['\n'])
    else c
  let c2 :=
    if text then
      match c1 with
      | .ui u =>
        Console.ui (((u.KV "Go".toList (.str m.goVersion)).KV "OS/Arch".toList
          (.str (m.goos ++ ['/'] ++ m.goarch))).Println [])
      | .bare o =>
        Console.bare (o ++ "Go:      ".toList ++ m.goVersion ++ ['\n']
          ++ "OS/Arch: ".toList ++ m.goos ++ ['/'] ++ m.goarch ++ ['\n', '\n'])
    else c1
  let scenarios : Option (List Str) :=
    if m.statOk then
      match m.load with
      | .ok registry => registry.list
      | .error _ => none
    else none
  let count : Nat := (scenarios.getD []).length
  let c3 :=
    if m.statOk then
      if text then
        match c2 with
        | .ui u =>
          let u1 := u.Successf F "scenarios directory found: %s".toList [.str m.scenariosDir]
          let u2 := if count > 0 then u1.KV "Scenarios".toList (.strs (scenarios.getD [])) else u1
          Console.ui (u2.Println [])
        | .bare o =>
          Console.bare (o ++ "Scenarios directory: ".toList ++ m.scenariosDir ++ ['\n']
            ++ (if count > 0 then
                  "Scenarios: ".toList ++ fmtStrings (scenarios.getD []) ++ ['\n']
                else [])
            ++ ['\n'])
      else c2
    else
      if text then
        match c2 with
        | .ui u =>
          Console.ui ((u.Errorf F "scenarios directory not found: %s".toList
            [.str m.scenariosDir]).Println [])
        | .bare o =>
          Console.bare (o ++ "Scenarios directory missing: ".toList ++ m.scenariosDir
            ++ ['\n', '\n'])
      else c2
  let portFree := isPortAvailable m doctorHost doctorPort
  let wsURL := "ws://".toList ++ doctorHost ++ [':'] ++ itoa doctorPort ++ "/hsi".toList
  if text then
    let c4 :=
      if portFree then
        match c3 with
        | .ui u =>
          Console.ui (((u.Successf F "port %d is available on %s".toList
            [.int doctorPort, .str doctorHost]).KV "WebSocket".toList (.str wsURL)).Println [])
        | .bare o =>
          Console.bare (o ++ "Port ".toList ++ itoa doctorPort ++ " is available on ".toList
            ++ doctorHost ++ ['\n'] ++ "WebSocket: ".toList ++ wsURL ++ ['\n', '\n'])
      else
        match c3 with
        | .ui u =>
          Console.ui (((u.Warnf F "port %d is in use on %s".toList
            [.int doctorPort, .str doctorHost]).KV "WebSocket".toList (.str wsURL)).Println [])
        | .bare o =>
          Console.bare (o ++ "Port ".toList ++ itoa doctorPort ++ " is in use on ".toList
            ++ doctorHost ++ ['\n'] ++ "WebSocket: ".toList ++ wsURL ++ ['\n', '\n'])
    let c5 :=
      match c4 with
      | .ui u => Console.ui (u.Section "Connection examples".toList)
      | .bare o => Console.bare (o ++ "Connection examples:\n".toList)
    (c5.print (connectionExamples F.tables wsURL), none)
  else
    c3.encodeJSON (.ok (Json.render J.jsonString 0 (.obj [
      ("go_version".toList, .str m.goVersion),
      ("os".toList, .str m.goos),
      ("arch".toList, .str m.goarch),
      ("scenarios_dir".toList, .str m.scenariosDir),
      ("scenarios".toList, stringsJson scenarios),
      ("port".toList, .num doctorPort),
      ("host".toList, .str doctorHost),
      ("port_free".toList, .bool portFree),
      ("websocket_url".toList, .str wsURL)])))

/-! ## version.go -/

/-- The build variables `Version` and `Commit`. -/
structure Build where
  Version : Str
  Commit : Str

/-- `runVersion`; the JSON payload is a map, encoded with its keys in sorted order. -/
def runVersion (J : JsonEnc) (opts : GlobalOptions) (b : Build) (m : Machine)
    (c : Console) : Console × Option GoError :=
  if opts.Format = "json".toList then
    c.encodeJSON (.ok (Json.render J.jsonString 0 (.obj [
      ("arch".toList, .str m.goarch),
      ("commit".toList, .str b.Commit),
      ("go".toList, .str m.goVersion),
      ("name".toList, .str "synheart".toList),
      ("os".toList, .str m.goos),
      ("version".toList, .str b.Version)])))
  else
    match c with
    | .ui u =>
      (Console.ui ((((((u.Header "Synheart CLI".toList).KV "Version".toList
        (.str ('v' :: b.Version))).KV "Commit".toList (.str b.Commit)).KV
        "Go".toList (.str m.goVersion)).KV "OS/Arch".toList
        (.str (m.goos ++ ['/'] ++ m.goarch)))), none)
    | .bare o =>
      (Console.bare (o ++ "Synheart CLI v".toList ++ b.Version ++ ['\n']
        ++ "Commit: ".toList ++ b.Commit ++ ['\n']
        ++ "Go: ".toList ++ m.goVersion ++ ['\n']
        ++ "OS/Arch: ".toList ++ m.goos ++ ['/'] ++ m.goarch ++ ['\n']), none)

/-! ## completion.go -/

/-- The generators of `cobra` that the completion command can call on the root
command, with the extra argument of the fish generator. -/
inductive CompletionCall
  | GenBashCompletion
  | GenZshCompletion
  | GenFishCompletion (includeDesc : Bool)
  | GenPowerShellCompletionWithDesc
  deriving DecidableEq, Repr

/-- The `switch` of `completionCmd.RunE` on `args[0]`: the generator to call, or the
error returned. -/
def completionSwitch (arg : Str) : Except GoError CompletionCall :=
  if arg = "bash".toList then .ok .GenBashCompletion
  else if arg = "zsh".toList then .ok .GenZshCompletion
  else if arg = "fish".toList then .ok (.GenFishCompletion true)
  else if arg = "powershell".toList then .ok .GenPowerShellCompletionWithDesc
  else .error (GoError.new ("unsupported shell: ".toList ++ arg))

/-- `completionCmd.RunE`: `gen` is the effect of a generator on the out writer and the
error it returns. -/
def completionRunE (gen : CompletionCall → Str → Str × Option GoError) (arg : Str)
    (out : Str) : Str × Option GoError :=
  match completionSwitch arg with
  | .ok call => gen call out
  | .error e => (out, some e)

/-! ## root.go: `Execute` -/

/-- The process after `Execute`: the `ui`, the text on `os.Stderr`, the exit status. -/
structure Exit where
  ui : Option UI
  stderr : Str
  status : Nat

/-- `Execute`, given the `ui` left by the command and the error `rootCmd.Execute()`
returned. -/
def Execute (F : Fmt) (ui : Option UI) (stderr : Str) (result : Option GoError) : Exit :=
  match result with
  | none => ⟨ui, stderr, 0⟩
  | some err =>
    match ui with
    | none => ⟨none, stderr ++ Sprintln [.err err], 1⟩
    | some u =>
      ⟨some ((u.Errorf F "%v".toList [.err err]).Printf F "hint: run %s\n".toList
        [.str (u.dim "synheart --help".toList)]), stderr, 1⟩

/-- The package variable `ui` as a command leaves it. -/
def Console.ui? : Console → Option UI
  | .ui u => some u
  | .bare _ => none

/-! ## Sample inputs -/

/-- The options after a pre-run with `--format json`. -/
def jsonOpts : GlobalOptions := { globalOptsDefault with Format := "json".toList }

/-- A scenario with no signals and no phases. -/
def calmScenario : Scenario :=
  ⟨"calm".toList, "Calm".toList, "60s".toList, "1hz".toList, [], []⟩

/-- A registry holding two scenarios, whose map is iterated out of order. -/
def demoRegistry : Registry :=
  { list := some ["calm".toList, "walk".toList],
    listWithDescriptions := [("walk".toList, "Walking".toList), ("calm".toList, "Calm".toList)],
    get := fun name =>
      if name = "calm".toList then .ok calmScenario
      else if name = "walk".toList then .ok { calmScenario with Name := "walk".toList }
      else .error (GoError.new ("scenario not found: ".toList ++ name)) }

/-- A registry loaded from a directory without scenario files. -/
def emptyRegistry : Registry :=
  { list := none, listWithDescriptions := [],
    get := fun name => .error (GoError.new ("scenario not found: ".toList ++ name)) }

/-- A machine whose scenario directory exists and fails to load. -/
def brokenMachine : Machine :=
  { goVersion := "go1.22".toList, goos := "linux".toList, goarch := "amd64".toList,
    scenariosDir := "scenarios".toList, statOk := true,
    load := .error (GoError.new "bad scenario file".toList), listen := fun _ => true }

/-- A UI with colour enabled, as on a terminal. -/
def colourUI : UI := ⟨[], [], true, false, false⟩

/-- A UI with colour disabled. -/
def plainUI : UI := ⟨[], [], false, false, false⟩

/-- A quiet UI, colour enabled. -/
def quietUI : UI := ⟨[], [], true, true, false⟩

/-- The first rune of a JSON text (RFC 8259): white space, or the first rune of an
object, an array, a string, a number or one of the three literal names. -/
def startsJson : Str → Bool
  | [] => false
  | c :: _ =>
    c = ' ' || c = '\t' || c = '\n' || c = '\r' || c = Char.ofNat 0x7b || c = '['
      || c = '"' || c = '-' || isDigit c || c = 't' || c = 'f' || c = 'n'

/-- The command name a not-found message would have to mention. -/
def listScenariosName : Str := "list-scenarios".toList

/-- The run of `synheart mock describe <name>` from the command to the exit of
`Execute`, after a pre-run hook that left the UI `u`. -/
def executeDescribe (F : Fmt) (J : JsonEnc) (opts : GlobalOptions)
    (load : Except GoError Registry) (name : Str) (u : UI) (stderr : Str) : Exit :=
  Execute F (runDescribe J opts load name (.ui u)).1.ui? stderr
    (runDescribe J opts load name (.ui u)).2

/-! ## The scenario engine

The phase scheduler of package `internal/scenario` is not among the sources; the
definitions of this section follow its specification. Times are in seconds, as rational
numbers. -/

namespace Engine

/-- Modelled from the spec: the start of phase `i` (the PhaseScheduler is absent),
"prefix-summing phase durations": `sum(duration[0..i))`. -/
def phaseStart (durs : List ℚ) (i : Nat) : ℚ := (durs.take i).sum

/-- Modelled from the spec: the end of phase `i` (the PhaseScheduler is absent):
`sum(duration[0..i])`. -/
def phaseEnd (durs : List ℚ) (i : Nat) : ℚ := (durs.take (i + 1)).sum

/-- Modelled from the spec: the active phase index of the PhaseScheduler (absent from
the sources) for the phase durations `durs` at elapsed time `t`: "phase i is active
while sum(duration[0..i)) ≤ t < sum(duration[0..i])"; past the last interval "the
scheduler holds at the last phase"; there is no phase when "t precedes all phases or
the scenario has no phases". -/
def activePhase (durs : List ℚ) (t : ℚ) : Option Nat :=
  if t < 0 ∨ durs = [] then none
  else
    match (List.range durs.length).find?
        (fun i => decide (phaseStart durs i ≤ t ∧ t < phaseEnd durs i)) with
    | some i => some i
    | none => some (durs.length - 1)

end Engine
/-! ## Theorems -/

/-- A printable rune other than the quote and the backslash is copied by `%q`. -/
theorem appendEscapedRune_plain (T : UnicodeTables) (c : Char)
    (h : IsPrint T c = true ∧ c ≠ '"' ∧ c ≠ '\\') : appendEscapedRune T c = [c] := by
  obtain ⟨hp, hq, hb⟩ := h
  simp [appendEscapedRune, hp, hq, hb]

theorem flatMap_appendEscapedRune_plain (T : UnicodeTables) (s : Str)
    (h : ∀ c ∈ s, IsPrint T c = true ∧ c ≠ '"' ∧ c ≠ '\\') :
    s.flatMap (appendEscapedRune T) = s := by
  induction s with
  | nil => rfl
  | cons c s ih =>
    rw [List.flatMap_cons, appendEscapedRune_plain T c (h c (List.mem_cons_self _ _)),
      ih (fun d hd => h d (List.mem_cons_of_mem _ hd))]
    rfl

/-- C1 (amended): with `n` the lower-cased, trimmed `--format` flag, the pre-run hook
succeeds exactly when `n` is empty, `text` or `json`; it stores `text` for the empty
string and for `text`, and `json` for `json`, so after a successful pre-run the format
is one of the two; otherwise it returns the error `invalid --format ` followed by `n` as
`%q` prints it and ` (expected: text|json)`; and `%q` prints `n` between double quotes
whenever `n` consists of printable runes other than the quote and the backslash. -/
theorem preRun_format (T : UnicodeTables) (env : TermEnv) (opts : GlobalOptions)
    (out er : Str) :
    ((persistentPreRunE T env opts out er).err = none ↔
      (ToLower T (TrimSpace opts.Format) = [] ∨
        ToLower T (TrimSpace opts.Format) = "text".toList ∨
        ToLower T (TrimSpace opts.Format) = "json".toList)) ∧
    ((ToLower T (TrimSpace opts.Format) = [] ∨
        ToLower T (TrimSpace opts.Format) = "text".toList) →
      (persistentPreRunE T env opts out er).opts.Format = "text".toList) ∧
    (ToLower T (TrimSpace opts.Format) = "json".toList →
      (persistentPreRunE T env opts out er).opts.Format = "json".toList) ∧
    ((persistentPreRunE T env opts out er).err = none →
      ((persistentPreRunE T env opts out er).opts.Format = "text".toList ∨
        (persistentPreRunE T env opts out er).opts.Format = "json".toList)) ∧
    (¬ (ToLower T (TrimSpace opts.Format) = [] ∨
        ToLower T (TrimSpace opts.Format) = "text".toList ∨
        ToLower T (TrimSpace opts.Format) = "json".toList) →
      (persistentPreRunE T env opts out er).err = some (GoError.new
        ("invalid --format ".toList ++ Quote T (ToLower T (TrimSpace opts.Format))
          ++ " (expected: text|json)".toList))) ∧
    ((∀ c ∈ ToLower T (TrimSpace opts.Format), IsPrint T c = true ∧ c ≠ '"' ∧ c ≠ '\\') →
      Quote T (ToLower T (TrimSpace opts.Format))
        = '"' :: ToLower T (TrimSpace opts.Format) ++ ['"']) := by
  have ht : "text".toList ≠ ([] : Str) := by decide
  have hj : "json".toList ≠ ([] : Str) := by decide
  have htj : "text".toList ≠ "json".toList := by decide
  simp only [persistentPreRunE]
  generalize ToLower T (TrimSpace opts.Format) = n
  have hq : (∀ c ∈ n, IsPrint T c = true ∧ c ≠ '"' ∧ c ≠ '\\') →
      Quote T n = '"' :: n ++ ['"'] := by
    intro h
    simp [Quote, flatMap_appendEscapedRune_plain T n h]
  by_cases h0 : n = []
  · subst h0
    simp [Quote]
  · by_cases h1 : n = "text".toList
    · subst h1
      simp only [h0, if_false, ne_eq, not_true_eq_false, false_and, if_false, true_or,
        or_true, iff_true, true_imp_iff, not_true_eq_false, false_imp_iff, true_and,
        htj, imp_true_iff]
      exact hq
    · by_cases h2 : n = "json".toList
      · subst h2
        simp only [h0, if_false, ne_eq, not_true_eq_false, and_false, if_false, true_or,
          or_true, iff_true, true_imp_iff, not_true_eq_false, false_imp_iff, true_and,
          imp_true_iff, htj.symm, hj, false_or]
        exact hq
      · simp only [h0, h1, h2, if_false, ne_eq, not_false_eq_true, and_self, if_true,
          or_self, false_iff, false_imp_iff, true_and, not_true_eq_false, imp_false,
          true_imp_iff]
        exact ⟨by simp, by simp, hq⟩

/-- C1 (as stated, refuted): for the flag `a"b` the error message carries the quote
escaped, `"a\"b"`, which is not `n` between double quotes. -/
theorem preRun_format_quote_counterexample :
    (persistentPreRunE asciiTables ⟨false, []⟩
        { globalOptsDefault with Format := "a\"b".toList } [] []).err
      = some (GoError.new "invalid --format \"a\\\"b\" (expected: text|json)".toList) ∧
    (persistentPreRunE asciiTables ⟨false, []⟩
        { globalOptsDefault with Format := "a\"b".toList } [] []).err
      ≠ some (GoError.new ("invalid --format \"".toList
          ++ ToLower asciiTables (TrimSpace "a\"b".toList)
          ++ "\" (expected: text|json)".toList)) := by
  decide

/-! ### Maps as association lists -/

theorem lookup_of_mem_nodupKeys {α β : Type} [BEq α] [LawfulBEq α] :
    ∀ (m : List (α × β)), (m.map Prod.fst).Nodup → ∀ p ∈ m, m.lookup p.1 = some p.2 := by
  intro m
  induction m with
  | nil => intro _ p hp; cases hp
  | cons q m ih =>
    intro hnd p hp
    obtain ⟨k, v⟩ := q
    rw [List.map_cons, List.nodup_cons] at hnd
    rcases List.mem_cons.1 hp with h | h
    · subst h
      simp [List.lookup]
    · have hne : p.1 ≠ k := by
        intro hk
        exact hnd.1 (List.mem_map.2 ⟨p, h, hk⟩)
      have hb : (p.1 == k) = false := by simpa using hne
      simp only [List.lookup, hb]
      exact ih hnd.2 p h

theorem lookup_none_of_not_mem_keys {α β : Type} [BEq α] [LawfulBEq α] :
    ∀ (m : List (α × β)) (k : α), k ∉ m.map Prod.fst → m.lookup k = none := by
  intro m
  induction m with
  | nil => intro _ _; rfl
  | cons q m ih =>
    intro k hk
    obtain ⟨k', v⟩ := q
    rw [List.map_cons, List.mem_cons, not_or] at hk
    have hb : (k == k') = false := by simpa using hk.1
    simp only [List.lookup, hb]
    exact ih k hk.2

theorem lookup_perm_nodupKeys {α β : Type} [BEq α] [LawfulBEq α] (m m' : List (α × β))
    (hnd : (m.map Prod.fst).Nodup) (hp : m'.Perm m) (k : α) : m'.lookup k = m.lookup k := by
  have hnd' : (m'.map Prod.fst).Nodup := ((hp.map Prod.fst).nodup_iff).2 hnd
  by_cases hk : k ∈ m.map Prod.fst
  · obtain ⟨p, hpm, rfl⟩ := List.mem_map.1 hk
    rw [lookup_of_mem_nodupKeys m hnd p hpm,
      lookup_of_mem_nodupKeys m' hnd' p (hp.mem_iff.2 hpm)]
  · have hk' : k ∉ m'.map Prod.fst := fun h => hk ((hp.map Prod.fst).mem_iff.1 h)
    rw [lookup_none_of_not_mem_keys m k hk, lookup_none_of_not_mem_keys m' k hk']

/-! ### `sort.Strings` -/

theorem sortStrings_perm (names : List Str) : (sortStrings names).Perm names :=
  List.perm_insertionSort _ names

theorem sortStrings_sorted (names : List Str) :
    (sortStrings names).Sorted (fun a b => a ≤ b) :=
  List.sorted_insertionSort _ names

theorem sortStrings_strict (names : List Str) (h : names.Nodup) :
    (sortStrings names).Sorted (fun a b => a < b) := by
  have hs := sortStrings_sorted names
  have hn : (sortStrings names).Nodup := (sortStrings_perm names).nodup_iff.2 h
  exact (List.Sorted.lt_of_le hs hn)

theorem sortStrings_congr (a b : List Str) (h : a.Perm b) : sortStrings a = sortStrings b :=
  List.eq_of_perm_of_sorted
    (((sortStrings_perm a).trans h).trans (sortStrings_perm b).symm)
    (sortStrings_sorted a) (sortStrings_sorted b)


theorem mapIndex_perm (m m' : List (Str × Str)) (hnd : (m.map Prod.fst).Nodup)
    (hp : m'.Perm m) : mapIndex m' = mapIndex m := by
  funext k
  simp only [mapIndex, lookup_perm_nodupKeys m m' hnd hp k]

theorem listRows_perm_map (m : List (Str × Str)) (hnd : (m.map Prod.fst).Nodup) :
    (listRows m).Perm m := by
  have h1 : (listRows m).Perm ((m.map Prod.fst).map (fun name => (name, mapIndex m name))) :=
    (sortStrings_perm _).map _
  have h2 : (m.map Prod.fst).map (fun name => (name, mapIndex m name)) = m := by
    rw [List.map_map]
    conv_rhs => rw [← List.map_id m]
    apply List.map_congr_left
    intro p hp
    simp [mapIndex, lookup_of_mem_nodupKeys m hnd p hp]
  rw [h2] at h1
  exact h1

theorem listRows_names (m : List (Str × Str)) :
    (listRows m).map Prod.fst = sortStrings (m.map Prod.fst) := by
  simp [listRows, List.map_map, Function.comp_def]

theorem listRows_congr (m m' : List (Str × Str)) (hnd : (m.map Prod.fst).Nodup)
    (hp : m'.Perm m) : listRows m' = listRows m := by
  simp only [listRows, mapIndex_perm m m' hnd hp, sortStrings_congr _ _ (hp.map Prod.fst)]

theorem Console.print_nil (c : Console) : c.print [] = c := by
  cases c <;> simp [Console.print]

theorem Console.print_print (c : Console) (a b : Str) :
    (c.print a).print b = c.print (a ++ b) := by
  cases c <;> simp [Console.print]

theorem foldl_print (f : Str → Str) (names : List Str) (c : Console) :
    names.foldl (fun c name => c.print (f name)) c = c.print (names.flatMap f) := by
  induction names generalizing c with
  | nil => simp [Console.print_nil]
  | cons n ns ih => simp [List.foldl_cons, ih, Console.print_print]

theorem Console.encodeJSON_ok (c : Console) (d : Str) :
    c.encodeJSON (.ok d) = (c.print (d ++ ['\n']), none) := by
  cases c <;> simp [Console.encodeJSON, Console.print, UI.PrintJSON]


theorem renderElems_rows (js : Str → Str) (rs : List (Str × Str)) :
    Json.renderElems js 1 (rs.map (fun r =>
        Json.obj [("name".toList, .str r.1), ("description".toList, .str r.2)]))
      = rs.flatMap (fun r => ",\n  \x7b\n    \"name\": ".toList
          ++ js r.1 ++ ",\n    \"description\": ".toList ++ js r.2
          ++ "\n  \x7d".toList) := by
  induction rs with
  | nil => rfl
  | cons r rs ih =>
    rw [List.map_cons, Json.renderElems, ih, List.flatMap_cons]
    simp [Json.render, Json.renderFields, indent, List.replicate]

theorem render_rows (js : Str → Str) (r : Str × Str) (rs : List (Str × Str)) :
    Json.render js 0 (rowsJson (r :: rs))
      = "[\n  \x7b\n    \"name\": ".toList ++ js r.1
          ++ ",\n    \"description\": ".toList ++ js r.2
          ++ "\n  \x7d".toList
          ++ rs.flatMap (fun r => ",\n  \x7b\n    \"name\": ".toList
            ++ js r.1 ++ ",\n    \"description\": ".toList ++ js r.2
            ++ "\n  \x7d".toList)
          ++ "\n]".toList := by
  rw [rowsJson, List.map_cons, Json.render, renderElems_rows]
  simp [Json.render, Json.renderFields, indent, List.replicate]

/-- C2: for a non-empty map of scenarios with distinct names, the rows of
`list-scenarios` are exactly the entries of the map (one row per name, with that name's
description), in strictly ascending order of name. In JSON format the output is the
array of these rows in that order, each row the object with the encoded name under
`"name"` and the encoded description under `"description"`, and a newline; in text
format it is the heading, then for each row in that order the line of two spaces, the
name padded on the right to 20 runes, a space, the description and a newline, then an
empty line. The output is the same for every order in which the map is iterated. -/
theorem listScenarios_rows_sorted (J : JsonEnc) (opts : GlobalOptions) (c : Console)
    (registry : Registry) (u : UI) (o s : Str)
    (hne : registry.listWithDescriptions ≠ [])
    (hnd : (registry.listWithDescriptions.map Prod.fst).Nodup) :
    (listRows registry.listWithDescriptions).Perm registry.listWithDescriptions ∧
    ((listRows registry.listWithDescriptions).map Prod.fst).Sorted (fun a b => a < b) ∧
    listRows registry.listWithDescriptions ≠ [] ∧
    (opts.Format = "json".toList →
      ∀ (r : Str × Str) (rs : List (Str × Str)),
        listRows registry.listWithDescriptions = r :: rs →
        runListScenarios J opts (.ok registry) c
          = (c.print ("[\n  \x7b\n    \"name\": ".toList ++ J.jsonString r.1
              ++ ",\n    \"description\": ".toList ++ J.jsonString r.2
              ++ "\n  \x7d".toList
              ++ rs.flatMap (fun x => ",\n  \x7b\n    \"name\": ".toList
                ++ J.jsonString x.1 ++ ",\n    \"description\": ".toList ++ J.jsonString x.2
                ++ "\n  \x7d".toList)
              ++ "\n]".toList ++ ['\n']), none)) ∧
    (opts.Format ≠ "json".toList →
      runListScenarios J opts (.ok registry) c
        = (((listHeading c).print ((listRows registry.listWithDescriptions).flatMap
            (fun x => "  ".toList ++ x.1 ++ List.replicate (20 - x.1.length) ' ' ++ [' ']
              ++ x.2 ++ ['\n']))).print ['\n'], none)) ∧
    ((Console.ui u).print s = .ui { u with out := u.out ++ s } ∧
      (Console.bare o).print s = .bare (o ++ s) ∧
      listHeading (.ui u) = .ui { u with
        out := (if u.quiet then u.out
          else u.out ++ u.bold "Available scenarios".toList ++ ['\n'] ++ ['\n']) } ∧
      listHeading (.bare o) = .bare (o ++ "Available scenarios:\n".toList ++ ['\n'])) ∧
    (∀ registry' : Registry,
      registry'.listWithDescriptions.Perm registry.listWithDescriptions →
      runListScenarios J opts (.ok registry') c = runListScenarios J opts (.ok registry) c) := by
  have hlen : registry.listWithDescriptions.length ≠ 0 := by
    simpa [List.length_eq_zero] using hne
  have hperm := listRows_perm_map _ hnd
  refine ⟨hperm, ?_, ?_, ?_, ?_, ⟨rfl, rfl, ?_, rfl⟩, ?_⟩
  · rw [listRows_names]
    exact sortStrings_strict _ hnd
  · intro h
    rw [h] at hperm
    exact hne hperm.symm.eq_nil
  · intro hj r rs hrows
    simp only [runListScenarios, hlen, if_false, hj, if_true, Console.encodeJSON_ok, hrows,
      render_rows]
  · intro hj
    simp only [runListScenarios, hlen, if_false, hj, foldl_print]
    simp [listRows, List.flatMap_map, Function.comp_def, List.flatMap, listLine, padTo]
  · cases u with
    | mk uo ue uc uq uv =>
      cases uq <;> simp [listHeading, UI.Header, UI.Println, Sprintln, fmtV, List.intercalate]
  · intro registry' hp
    have hlen' : registry'.listWithDescriptions.length ≠ 0 := by
      rw [hp.length_eq]; exact hlen
    simp only [runListScenarios, hlen, hlen', if_false, listRows_congr _ _ hnd hp,
      mapIndex_perm _ _ hnd hp, sortStrings_congr _ _ (hp.map Prod.fst)]

/-- C2 at a registry of two scenarios whose map is iterated out of order, in JSON
format and in text format. -/
theorem listScenarios_rows_sorted_witness :
    (demoRegistry.listWithDescriptions ≠ [] ∧
      (demoRegistry.listWithDescriptions.map Prod.fst).Nodup) ∧
    (runListScenarios asciiJson jsonOpts (.ok demoRegistry) (.bare [])).1.out
      = ("[\n  \x7b\n    \"name\": \"calm\",\n    \"description\": \"Calm\"\n  \x7d,\n"
          ++ "  \x7b\n    \"name\": \"walk\",\n    \"description\": \"Walking\"\n  \x7d\n]\n").toList ∧
    (runListScenarios asciiJson globalOptsDefault (.ok demoRegistry) (.bare [])).1.out
      = ("Available scenarios:\n\n  calm                 Calm\n"
          ++ "  walk                 Walking\n\n").toList :=
  ⟨⟨by decide, by decide⟩,
    ((listScenarios_rows_sorted asciiJson jsonOpts (.bare []) demoRegistry plainUI [] []
      (by decide) (by decide)).2.2.2.1 rfl ("calm".toList, "Calm".toList)
      [("walk".toList, "Walking".toList)] (by rfl)) ▸ (by rfl),
    ((listScenarios_rows_sorted asciiJson globalOptsDefault (.bare []) demoRegistry plainUI [] []
      (by decide) (by decide)).2.2.2.2.1 (by decide)) ▸ (by rfl)⟩

/-! ### JSON output of the commands -/

theorem version_json (J : JsonEnc) (opts : GlobalOptions) (b : Build) (m : Machine)
    (c : Console) (hj : opts.Format = "json".toList) :
    ∃ doc, runVersion J opts b m c = (c.print (doc ++ ['\n']), none) := by
  simp only [runVersion, hj, if_true, Console.encodeJSON_ok]
  exact ⟨_, rfl⟩

theorem doctor_json (F : Fmt) (J : JsonEnc) (opts : GlobalOptions) (m : Machine)
    (host : Str) (port : Int) (c : Console) (hj : opts.Format = "json".toList) :
    ∃ doc, runDoctor F J opts m host port c = (c.print (doc ++ ['\n']), none) := by
  have ht : opts.Format ≠ "text".toList := by rw [hj]; decide
  simp only [runDoctor, ht, decide_False, Bool.false_eq_true, if_false,
    Console.encodeJSON_ok, ite_self]
  exact ⟨_, rfl⟩

theorem describe_json (J : JsonEnc) (opts : GlobalOptions) (registry : Registry)
    (name : Str) (c : Console) (scen : Scenario) (doc : Str)
    (hj : opts.Format = "json".toList) (hg : registry.get name = .ok scen)
    (hd : J.scenario scen = .ok doc) :
    runDescribe J opts (.ok registry) name c = (c.print (doc ++ ['\n']), none) := by
  simp only [runDescribe, hg, hj, if_true, hd, Console.encodeJSON_ok]

theorem listScenarios_json (J : JsonEnc) (opts : GlobalOptions) (registry : Registry)
    (c : Console) (hj : opts.Format = "json".toList)
    (hne : registry.listWithDescriptions ≠ []) :
    ∃ doc, runListScenarios J opts (.ok registry) c = (c.print (doc ++ ['\n']), none) := by
  have hlen : registry.listWithDescriptions.length ≠ 0 := by
    simpa [List.length_eq_zero] using hne
  simp only [runListScenarios, hlen, if_false, hj, if_true, Console.encodeJSON_ok]
  exact ⟨_, rfl⟩

theorem listScenarios_empty (J : JsonEnc) (opts : GlobalOptions) (c : Console)
    (list : Option (List Str)) (get : Str → Except GoError Scenario) :
    runListScenarios J opts (.ok ⟨list, [], get⟩) c
      = (c.print "No scenarios found\n".toList, none) := by
  rfl

/-- C3: with `--format json` and a registry without scenarios, `list-scenarios`
succeeds and writes the plain line `No scenarios found`, which is not a JSON document
(it starts with the rune `N`) and is not the encoding `[]` of the empty list of rows. -/
theorem listScenarios_json_empty_registry :
    runListScenarios asciiJson jsonOpts (.ok emptyRegistry) (.ui plainUI)
      = (.ui { plainUI with out := "No scenarios found\n".toList }, none) ∧
    startsJson (runListScenarios asciiJson jsonOpts (.ok emptyRegistry)
      (.ui plainUI)).1.out = false ∧
    (runListScenarios asciiJson jsonOpts (.ok emptyRegistry) (.ui plainUI)).1.out
      ≠ Json.render asciiJson.jsonString 0 (rowsJson (listRows [])) ++ ['\n'] := by
  refine ⟨by rfl, by decide, by decide⟩


/-! ### Load errors and unknown scenarios -/

/-- C4 (as stated, refuted): on a machine whose scenario directory fails to load,
`doctor` returns no error, in text and in JSON format. -/
theorem doctor_load_error_counterexample :
    (runDoctor asciiFmt asciiJson globalOptsDefault brokenMachine "127.0.0.1".toList 8787
      (.ui plainUI)).2 = none ∧
    (runDoctor asciiFmt asciiJson jsonOpts brokenMachine "127.0.0.1".toList 8787
      (.ui plainUI)).2 = none := by
  refine ⟨by rfl, by rfl⟩

/-- C4 (amended): when `LoadFromDir` fails with `e`, `list-scenarios` and `describe`
write nothing and return the error `failed to load scenarios: ` followed by the message
of `e`, which wraps `e`; `doctor` does not abort: it returns no error, and its report
is the same for every load error: it is the report obtained when `List()` returns the
nil slice, in text format also the one obtained when `List()` returns an empty slice,
and in JSON format the document whose field `scenarios` is `null`. -/
theorem load_error_propagation (F : Fmt) (J : JsonEnc) (opts : GlobalOptions)
    (e e' : GoError) (name : Str) (m : Machine) (host : Str) (port : Int) (c : Console)
    (descriptions : List (Str × Str)) (get : Str → Except GoError Scenario) :
    runListScenarios J opts (.error e) c
      = (c, some (GoError.wrap "failed to load scenarios: ".toList e)) ∧
    runDescribe J opts (.error e) name c
      = (c, some (GoError.wrap "failed to load scenarios: ".toList e)) ∧
    (GoError.wrap "failed to load scenarios: ".toList e).msg
      = "failed to load scenarios: ".toList ++ e.msg ∧
    e.msg ∈ (GoError.wrap "failed to load scenarios: ".toList e).chain ∧
    (runDoctor F J opts { m with load := .error e } host port c).2 = none ∧
    runDoctor F J opts { m with load := .error e } host port c
      = runDoctor F J opts { m with load := .error e' } host port c ∧
    runDoctor F J opts { m with load := .error e } host port c
      = runDoctor F J opts { m with load := .ok ⟨none, descriptions, get⟩ } host port c ∧
    (opts.Format = "text".toList →
      runDoctor F J opts { m with load := .error e } host port c
        = runDoctor F J opts { m with load := .ok ⟨some [], descriptions, get⟩ } host port c) ∧
    (opts.Format ≠ "text".toList →
      runDoctor F J opts { m with load := .error e } host port c
        = (c.print (Json.render J.jsonString 0 (.obj [
            ("go_version".toList, .str m.goVersion),
            ("os".toList, .str m.goos),
            ("arch".toList, .str m.goarch),
            ("scenarios_dir".toList, .str m.scenariosDir),
            ("scenarios".toList, .null),
            ("port".toList, .num port),
            ("host".toList, .str host),
            ("port_free".toList, .bool (m.listen (host ++ [':'] ++ itoa port))),
            ("websocket_url".toList,
              .str ("ws://".toList ++ host ++ [':'] ++ itoa port ++ "/hsi".toList))])
          ++ ['\n']), none)) := by
  refine ⟨rfl, rfl, rfl, List.mem_cons_self _ _, ?_, ?_, ?_, ?_, ?_⟩
  · simp only [runDoctor, Console.encodeJSON_ok]
    split <;> rfl
  · simp only [runDoctor, isPortAvailable]
  · simp only [runDoctor, isPortAvailable]
  · intro ht
    cases hs : m.statOk <;>
      simp only [runDoctor, isPortAvailable, ht, hs, decide_True, if_true, if_false,
        Bool.false_eq_true, Option.getD_none, Option.getD_some]
  · intro ht
    simp only [runDoctor, isPortAvailable, ht, decide_False, Bool.false_eq_true, if_false,
      Console.encodeJSON_ok, ite_self, stringsJson]

/-- C5: when `Get` fails with `e`, `describe` returns the error whose message is
`scenario not found: ` followed by the message of `e` and which wraps `e`, and leaves
the writers as they were, whatever the format. -/
theorem describe_not_found (J : JsonEnc) (opts : GlobalOptions) (registry : Registry)
    (name : Str) (e : GoError) (c : Console) (hg : registry.get name = .error e) :
    runDescribe J opts (.ok registry) name c
      = (c, some (GoError.wrap "scenario not found: ".toList e)) ∧
    (GoError.wrap "scenario not found: ".toList e).msg
      = "scenario not found: ".toList ++ e.msg ∧
    e.msg ∈ (GoError.wrap "scenario not found: ".toList e).chain := by
  refine ⟨?_, rfl, List.mem_cons_self _ _⟩
  simp only [runDescribe, hg]

/-- C5 at the unknown scenario `run`, in JSON format. -/
theorem describe_not_found_witness :
    demoRegistry.get "run".toList
      = .error (GoError.new "scenario not found: run".toList) ∧
    (runDescribe asciiJson jsonOpts (.ok demoRegistry) "run".toList (.ui plainUI)
      = (.ui plainUI, some (GoError.wrap "scenario not found: ".toList
          (GoError.new "scenario not found: run".toList))) ∧
    (GoError.wrap "scenario not found: ".toList
        (GoError.new "scenario not found: run".toList)).msg
      = "scenario not found: ".toList ++ (GoError.new "scenario not found: run".toList).msg ∧
    (GoError.new "scenario not found: run".toList).msg
      ∈ (GoError.wrap "scenario not found: ".toList
          (GoError.new "scenario not found: run".toList)).chain) :=
  ⟨by rfl, describe_not_found asciiJson jsonOpts demoRegistry "run".toList
    (GoError.new "scenario not found: run".toList) (.ui plainUI) (by rfl)⟩

/-! ### completion -/

/-- C7: the completion command returns `unsupported shell: ` followed by its argument
exactly when the argument is none of `bash`, `zsh`, `fish`, `powershell`, and for each
of these four it calls the generator of that shell and returns what it returns. -/
theorem completion_dispatch (a : Str) (gen : CompletionCall → Str → Str × Option GoError)
    (out : Str) :
    (completionSwitch a = .error (GoError.new ("unsupported shell: ".toList ++ a)) ↔
      a ∉ ["bash".toList, "zsh".toList, "fish".toList, "powershell".toList]) ∧
    (a ∉ ["bash".toList, "zsh".toList, "fish".toList, "powershell".toList] →
      completionRunE gen a out
        = (out, some (GoError.new ("unsupported shell: ".toList ++ a)))) ∧
    (a = "bash".toList → completionSwitch a = .ok .GenBashCompletion ∧
      completionRunE gen a out = gen .GenBashCompletion out) ∧
    (a = "zsh".toList → completionSwitch a = .ok .GenZshCompletion ∧
      completionRunE gen a out = gen .GenZshCompletion out) ∧
    (a = "fish".toList → completionSwitch a = .ok (.GenFishCompletion true) ∧
      completionRunE gen a out = gen (.GenFishCompletion true) out) ∧
    (a = "powershell".toList → completionSwitch a = .ok .GenPowerShellCompletionWithDesc ∧
      completionRunE gen a out = gen .GenPowerShellCompletionWithDesc out) ∧
    completionSwitch "Bash".toList
      = .error (GoError.new "unsupported shell: Bash".toList) := by
  refine ⟨?_, ?_, ?_, ?_, ?_, ?_, by rfl⟩
  · simp only [completionSwitch, List.mem_cons, List.mem_singleton, List.not_mem_nil,
      or_false, not_or]
    constructor
    · intro h
      split_ifs at h with h1 h2 h3 h4
      exact ⟨h1, h2, h3, h4⟩
    · rintro ⟨h1, h2, h3, h4⟩
      rw [if_neg h1, if_neg h2, if_neg h3, if_neg h4]
  · intro h
    simp only [List.mem_cons, List.mem_singleton, List.not_mem_nil, or_false, not_or] at h
    simp only [completionRunE, completionSwitch, if_neg h.1, if_neg h.2.1, if_neg h.2.2.1,
      if_neg h.2.2.2]
  · rintro rfl; exact ⟨by rfl, by rfl⟩
  · rintro rfl; exact ⟨by rfl, by rfl⟩
  · rintro rfl; exact ⟨by rfl, by rfl⟩
  · rintro rfl; exact ⟨by rfl, by rfl⟩


/-! ### `fmt.Sprintf` on the formats of the UI -/

theorem sprintfGo_text (T : UnicodeTables) (p f : Str) (args : List Any)
    (hp : '%' ∉ p) :
    sprintfGo T none (p ++ f) args = (sprintfGo T none f args).map (fun r => p ++ r) := by
  induction p with
  | nil => simp
  | cons c p ih =>
    have hc : c ≠ '%' := fun h => hp (h ▸ List.mem_cons_self _ _)
    have hp' : '%' ∉ p := fun h => hp (List.mem_cons_of_mem _ h)
    rw [List.cons_append, sprintfGo, if_neg hc, ih hp', Option.map_map]
    rfl

theorem wrap_no_percent (u : UI) (code s : Str) (hc : '%' ∉ code) (hs : '%' ∉ s) :
    '%' ∉ u.wrap code s := by
  unfold UI.wrap
  split_ifs
  · exact hs
  · exact hs
  · simp only [List.mem_append, List.mem_cons, List.mem_singleton, List.not_mem_nil,
      or_false, not_or]
    refine ⟨⟨⟨⟨⟨by decide, by decide⟩, hc⟩, by decide⟩, hs⟩, by decide, by decide, by decide,
      by decide⟩

theorem sprintfGo_v_err (T : UnicodeTables) (e : GoError) :
    sprintfGo T none "%v\n".toList [.err e] = some (e.msg ++ ['\n']) := by
  rfl

theorem sprintfGo_hint (T : UnicodeTables) (s : Str) :
    sprintfGo T none "hint: run %s\n".toList [.str s] = some ("hint: run ".toList ++ s ++ ['\n']) := by
  rfl


/-! ### Searching a text that is cut by a rune the word does not contain -/

theorem infix_append_cons_iff {α : Type} (N X Y : List α) (a : α) (ha : a ∉ N) :
    N <:+: X ++ a :: Y ↔ N <:+: X ∨ N <:+: Y := by
  constructor
  · rintro ⟨s, t, h⟩
    rw [List.append_assoc] at h
    rcases List.append_eq_append_iff.1 h with ⟨a', hX, h2⟩ | ⟨c', hs, h2⟩
    · rcases List.append_eq_append_iff.1 h2 with ⟨b', hN, _⟩ | ⟨c', hN, h3⟩
      · left
        exact ⟨s, b', by rw [hX, hN, List.append_assoc]⟩
      · cases c' with
        | nil =>
          left
          rw [List.append_nil] at hN
          exact ⟨s, [], by rw [hX, hN, List.append_nil]⟩
        | cons x c'' =>
          exfalso
          rw [List.cons_append] at h3
          injection h3 with hx _
          apply ha
          rw [hN, hx]
          exact List.mem_append_right _ (List.mem_cons_self _ _)
    · cases c' with
      | nil =>
        rw [List.nil_append] at h2
        cases N with
        | nil => left; exact List.nil_infix
        | cons n N' =>
          exfalso
          rw [List.cons_append] at h2
          injection h2 with hx _
          exact ha (hx ▸ List.mem_cons_self _ _)
      | cons x c'' =>
        right
        rw [List.cons_append] at h2
        injection h2 with _ hY
        exact ⟨c'', t, by rw [hY, List.append_assoc]⟩
  · rintro (h | h)
    · obtain ⟨s, t, rfl⟩ := h
      exact ⟨s, t ++ a :: Y, by simp⟩
    · obtain ⟨s, t, rfl⟩ := h
      exact ⟨X ++ a :: s, t, by simp⟩


/-! ### The failure text of an unknown scenario -/

/-- What `describe` and `Execute` print for an unknown scenario: when `Get` fails with
`e`, the run ends with status 1, the label `error: ` styled red and `scenario not found: `
followed by the message of `e` on the err writer, and, unless quiet, `hint: run ` and
the command `synheart --help` styled dim on the out writer; this text holds the word
`list-scenarios` exactly when the message of `e` does. -/
theorem notFound_text (F : Fmt) (J : JsonEnc) (opts : GlobalOptions) (registry : Registry)
    (name : Str) (e : GoError) (u : UI) (stderr : Str)
    (hg : registry.get name = .error e) :
    executeDescribe F J opts (.ok registry) name u stderr
      = ⟨some { u with
          err := u.err ++ (u.red "error: ".toList ++ "scenario not found: ".toList
            ++ e.msg ++ ['\n']),
          out := if u.quiet then u.out
            else u.out ++ ("hint: run ".toList ++ u.dim "synheart --help".toList ++ ['\n']) },
        stderr, 1⟩ ∧
    ((listScenariosName <:+: u.red "error: ".toList ++ "scenario not found: ".toList
          ++ e.msg ++ ['\n'] ∨
      listScenariosName <:+: "hint: run ".toList ++ u.dim "synheart --help".toList ++ ['\n'])
      ↔ listScenariosName <:+: e.msg) := by
  constructor
  · have hred : '%' ∉ u.red "error: ".toList :=
      wrap_no_percent u _ _ (by decide) (by decide)
    have h1 : Sprintf F (u.red "error: ".toList ++ "%v".toList ++ ['\n'])
        [.err (GoError.wrap "scenario not found: ".toList e)]
        = u.red "error: ".toList ++ "scenario not found: ".toList ++ e.msg ++ ['\n'] := by
      have : (u.red "error: ".toList ++ "%v".toList ++ ['\n'])
          = u.red "error: ".toList ++ "%v\n".toList := by simp
      rw [Sprintf, this, sprintfGo_text _ _ _ _ hred, sprintfGo_v_err]
      simp [GoError.wrap]
    have h2 : Sprintf F "hint: run %s\n".toList [.str (u.dim "synheart --help".toList)]
        = "hint: run ".toList ++ u.dim "synheart --help".toList ++ ['\n'] := by
      rw [Sprintf, sprintfGo_hint]
    simp only [executeDescribe, runDescribe, hg, Console.ui?, Execute, UI.Errorf, UI.Printf,
      h1, h2]
    by_cases hq : u.quiet <;> simp [hq]
  · have hsp : ' ' ∉ listScenariosName := by decide
    have hnl : '\n' ∉ listScenariosName := by decide
    have herr : (u.red "error: ".toList ++ "scenario not found: ".toList ++ e.msg ++ ['\n'])
        = (u.red "error: ".toList ++ "scenario not found:".toList) ++ ' ' :: (e.msg ++ '\n' :: [])
        := by simp
    have hA : ¬ listScenariosName <:+: u.red "error: ".toList ++ "scenario not found:".toList := by
      cases hc : u.colorEnabled <;> simp only [UI.red, UI.wrap, hc] <;> decide
    have hB : ¬ listScenariosName
        <:+: "hint: run ".toList ++ u.dim "synheart --help".toList ++ ['\n'] := by
      cases hc : u.colorEnabled <;> simp only [UI.dim, UI.wrap, hc] <;> decide
    have hnil : ¬ listScenariosName <:+: ([] : Str) := by decide
    rw [herr, infix_append_cons_iff _ _ _ _ hsp, infix_append_cons_iff _ _ _ _ hnl]
    simp only [hA, hB, hnil, false_or, or_false]

theorem sprintfGo_newline (T : UnicodeTables) :
    ∀ (f : Str) (st : Option Directive) (args : List Any) (m : Str),
      sprintfGo T st f args = some m →
      sprintfGo T st (f ++ ['\n']) args = some (m ++ ['\n']) := by
  intro f
  induction f with
  | nil =>
    intro st args m h
    cases st with
    | none =>
      cases args with
      | nil =>
        simp only [sprintfGo, Option.some.injEq] at h
        subst h
        rfl
      | cons a as => simp [sprintfGo] at h
    | some d => simp [sprintfGo] at h
  | cons c f ih =>
    intro st args m h
    cases st with
    | none =>
      rw [List.cons_append]
      simp only [sprintfGo] at h ⊢
      split_ifs at h ⊢ with hc
      · exact ih _ _ _ h
      · rcases hr : sprintfGo T none f args with _ | r
        · simp [hr] at h
        · simp only [hr, Option.map_some', Option.some.injEq] at h
          subst h
          simp [ih _ _ _ hr]
    | some d =>
      rw [List.cons_append]
      simp only [sprintfGo] at h ⊢
      split_ifs at h ⊢ with h1 h2 h3 h4 h5
      · rcases hr : sprintfGo T none f args with _ | r
        · simp [hr] at h
        · simp only [hr, Option.map_some', Option.some.injEq] at h
          subst h
          simp [ih _ _ _ hr]
      · exact ih _ _ _ h
      · exact ih _ _ _ h
      · cases args with
        | nil => simp at h
        | cons a as =>
          simp only at h ⊢
          rcases hf : fmtArg T d c a with _ | s
          · simp [hf] at h
          · simp only [hf] at h ⊢
            rcases hr : sprintfGo T none f as with _ | r
            · simp [hr] at h
            · simp only [hr, Option.map_some', Option.some.injEq] at h
              subst h
              simp [ih _ _ _ hr]


/-! ### The UI under `--quiet` -/

/-- C10 (as stated, refuted): on a UI with colour enabled, `Errorf("boom")` appends the
label between the escape sequences of red, not the bare line `error: boom`. -/
theorem errorf_colour_counterexample :
    (colourUI.Errorf asciiFmt "boom".toList []).err
      = "\x1b[31merror: \x1b[0mboom\n".toList ∧
    (colourUI.Errorf asciiFmt "boom".toList []).err
      ≠ colourUI.err ++ ("error: ".toList ++ Sprintf asciiFmt "boom".toList [] ++ ['\n']) := by
  refine ⟨by rfl, by decide⟩

/-- C10 (amended): on a quiet UI the methods `Header`, `Section`, `KV`, `Printf`,
`Println`, `Warnf` and `Successf` change nothing; `Errorf`, whatever the settings,
leaves the out writer alone and appends to the err writer the formatting of the label
`error: ` styled red, the format and a newline, which for a format of the fragment
printing `m` is the styled label, `m` and a newline; the styled label is the bare
`error: ` when colour is disabled and is enclosed in the escape sequences of red when
colour is enabled. -/
theorem ui_quiet_and_errorf (F : Fmt) (u w : UI) (title key format : Str) (value : Any)
    (args : List Any) (hq : u.quiet = true) :
    (u.Header title = u ∧ u.Section title = u ∧ u.KV key value = u ∧
      u.Printf F format args = u ∧ u.Println args = u ∧ u.Warnf F format args = u ∧
      u.Successf F format args = u) ∧
    (w.Errorf F format args).out = w.out ∧
    (w.Errorf F format args).err
      = w.err ++ Sprintf F (w.red "error: ".toList ++ format ++ ['\n']) args ∧
    (∀ m, sprintfGo F.tables none format args = some m →
      (w.Errorf F format args).err = w.err ++ (w.red "error: ".toList ++ m ++ ['\n'])) ∧
    (w.colorEnabled = false → w.red "error: ".toList = "error: ".toList) ∧
    (w.colorEnabled = true →
      w.red "error: ".toList = "\x1b[31m".toList ++ "error: ".toList ++ "\x1b[0m".toList) := by
  refine ⟨?_, rfl, rfl, ?_, ?_, ?_⟩
  · simp [UI.Header, UI.Section, UI.KV, UI.Printf, UI.Println, UI.Warnf, UI.Successf, hq]
  · intro m hm
    have hred : '%' ∉ w.red "error: ".toList :=
      wrap_no_percent w _ _ (by decide) (by decide)
    simp only [UI.Errorf, Sprintf, List.append_assoc,
      sprintfGo_text _ _ _ _ hred, sprintfGo_newline _ _ _ _ _ hm, Option.map_some']
  · intro hc
    simp [UI.red, UI.wrap, hc]
  · intro hc
    simp only [UI.red, UI.wrap, hc]
    rfl

/-- C10 (amended) at a quiet UI, and at `Errorf("port %d", 7)` on a UI with colour. -/
theorem ui_quiet_and_errorf_witness :
    quietUI.quiet = true ∧
    ((quietUI.Header "Scenario".toList = quietUI ∧
      quietUI.Section "Scenario".toList = quietUI ∧
      quietUI.KV "Name".toList (.int 7) = quietUI ∧
      quietUI.Printf asciiFmt "port %d".toList [.int 7]
        = quietUI ∧
      quietUI.Println [.int 7] = quietUI ∧
      quietUI.Warnf asciiFmt "port %d".toList [.int 7]
        = quietUI ∧
      quietUI.Successf asciiFmt "port %d".toList [.int 7]
        = quietUI) ∧
    (colourUI.Errorf asciiFmt "port %d".toList [.int 7]).out = colourUI.out ∧
    (colourUI.Errorf asciiFmt "port %d".toList [.int 7]).err
      = colourUI.err
        ++ Sprintf asciiFmt (colourUI.red "error: ".toList ++ "port %d".toList ++ ['\n'])
          [.int 7] ∧
    (∀ m, sprintfGo asciiFmt.tables none "port %d".toList [.int 7] = some m →
      (colourUI.Errorf asciiFmt "port %d".toList [.int 7]).err
        = colourUI.err ++ (colourUI.red "error: ".toList ++ m ++ ['\n'])) ∧
    (colourUI.colorEnabled = false → colourUI.red "error: ".toList = "error: ".toList) ∧
    (colourUI.colorEnabled = true →
      colourUI.red "error: ".toList
        = "\x1b[31m".toList ++ "error: ".toList ++ "\x1b[0m".toList)) :=
  ⟨rfl, ui_quiet_and_errorf asciiFmt quietUI colourUI "Scenario".toList
    "Name".toList "port %d".toList (.int 7) [.int 7] rfl⟩


/-! ### The phase scheduler -/

namespace Engine

theorem take_sum_mono (durs : List ℚ) (hnn : ∀ d ∈ durs, 0 ≤ d) :
    ∀ i j : Nat, i ≤ j → (durs.take i).sum ≤ (durs.take j).sum := by
  induction durs with
  | nil => intro i j _; simp
  | cons d ds ih =>
    intro i j hij
    have hds : ∀ x ∈ ds, 0 ≤ x := fun x hx => hnn x (List.mem_cons_of_mem _ hx)
    cases i with
    | zero =>
      rw [List.take_zero, List.sum_nil]
      exact List.sum_nonneg (fun x hx => hnn x (List.mem_of_mem_take hx))
    | succ i =>
      cases j with
      | zero => omega
      | succ j =>
        simp only [List.take_succ_cons, List.sum_cons]
        have := ih hds i j (by omega)
        linarith

theorem take_sum_le_sum (durs : List ℚ) (hnn : ∀ d ∈ durs, 0 ≤ d) (i : Nat) :
    (durs.take i).sum ≤ durs.sum := by
  by_cases h : i ≤ durs.length
  · have := take_sum_mono durs hnn i durs.length h
    rwa [List.take_length] at this
  · rw [List.take_of_length_le (by omega)]

theorem phase_unique (durs : List ℚ) (hnn : ∀ d ∈ durs, 0 ≤ d) (t : ℚ) (i j : Nat)
    (hi : phaseStart durs i ≤ t ∧ t < phaseEnd durs i)
    (hj : phaseStart durs j ≤ t ∧ t < phaseEnd durs j) : i = j := by
  unfold phaseStart phaseEnd at hi hj
  rcases Nat.lt_trichotomy i j with h | h | h
  · have := take_sum_mono durs hnn (i + 1) j h
    linarith [hi.2, hj.1]
  · exact h
  · have := take_sum_mono durs hnn (j + 1) i h
    linarith [hi.1, hj.2]

theorem phase_exists (durs : List ℚ) (t : ℚ) (h0 : 0 ≤ t) (ht : t < durs.sum) :
    ∃ i, i < durs.length ∧ phaseStart durs i ≤ t ∧ t < phaseEnd durs i := by
  have hex : ∃ k, t < (durs.take k).sum := ⟨durs.length, by rwa [List.take_length]⟩
  classical
  have hmin : ∀ m, m < Nat.find hex → ¬ t < (durs.take m).sum :=
    fun m hm => Nat.find_min hex hm
  have hspec := Nat.find_spec hex
  have hle : Nat.find hex ≤ durs.length := Nat.find_min' hex (by rwa [List.take_length])
  cases hk : Nat.find hex with
  | zero =>
    rw [hk] at hspec
    simp at hspec
    linarith
  | succ k =>
    rw [hk] at hspec
    refine ⟨k, by omega, ?_, hspec⟩
    have := hmin k (by omega)
    exact not_lt.1 this

theorem activePhase_within (durs : List ℚ) (hnn : ∀ d ∈ durs, 0 ≤ d) (t : ℚ) (h0 : 0 ≤ t)
    (ht : t < durs.sum) (i : Nat) :
    activePhase durs t = some i ↔ (phaseStart durs i ≤ t ∧ t < phaseEnd durs i) := by
  obtain ⟨k, hk, hPk⟩ := phase_exists durs t h0 ht
  have hne : durs ≠ [] := by
    rintro rfl
    simp at hk
  have hact : activePhase durs t = some k := by
    unfold activePhase
    rw [if_neg (by simp [not_lt.2 h0, hne])]
    cases hf : (List.range durs.length).find?
        (fun i => decide (phaseStart durs i ≤ t ∧ t < phaseEnd durs i)) with
    | none =>
      exfalso
      rw [List.find?_eq_none] at hf
      have := hf k (List.mem_range.2 hk)
      simp only [decide_eq_true_eq] at this
      exact this hPk
    | some j =>
      have hj := List.find?_some hf
      simp only [decide_eq_true_eq] at hj
      simp only [Option.some.injEq]
      exact phase_unique durs hnn t j k hj hPk
  rw [hact]
  constructor
  · intro h
    injection h with h
    subst h
    exact hPk
  · intro h
    rw [phase_unique durs hnn t k i hPk h]

theorem activePhase_hold (durs : List ℚ) (hnn : ∀ d ∈ durs, 0 ≤ d) (t : ℚ)
    (hne : durs ≠ []) (ht : durs.sum ≤ t) :
    activePhase durs t = some (durs.length - 1) := by
  have h0 : 0 ≤ t := le_trans (List.sum_nonneg hnn) ht
  unfold activePhase
  rw [if_neg (by simp [not_lt.2 h0, hne])]
  cases hf : (List.range durs.length).find?
      (fun i => decide (phaseStart durs i ≤ t ∧ t < phaseEnd durs i)) with
  | none => rfl
  | some j =>
    exfalso
    have hj := List.find?_some hf
    simp only [decide_eq_true_eq, phaseEnd] at hj
    have := take_sum_le_sum durs hnn (j + 1)
    linarith [hj.2]

theorem activePhase_zero (d0 : ℚ) (ds : List ℚ) (h : 0 < d0 ∨ ds = []) :
    activePhase (d0 :: ds) 0 = some 0 := by
  unfold activePhase
  rw [if_neg (by simp)]
  rcases h with h | h
  · have : (List.range (d0 :: ds).length) = 0 :: (List.range ds.length).map Nat.succ := by
      rw [List.length_cons, List.range_succ_eq_map]
    rw [this, List.find?_cons]
    simp [phaseStart, phaseEnd, h]
  · subst h
    by_cases hd : 0 < d0 <;>
      simp [phaseStart, phaseEnd, List.range, List.range.loop, List.find?, hd]

theorem activePhase_third (d0 d1 d2 ε : ℚ) (h0 : 0 ≤ d0) (h1 : 0 ≤ d1) (hε : 0 < ε) :
    activePhase [d0, d1, d2] (d0 + d1 + ε) = some 2 := by
  unfold activePhase
  rw [if_neg (by
    simp only [List.cons_ne_nil, or_false, not_lt]
    linarith)]
  have hr : List.range [d0, d1, d2].length = [0, 1, 2] := by rfl
  rw [hr]
  have hP0 : ¬ (d0 + d1 + ε < phaseEnd [d0, d1, d2] 0) := by
    simp [phaseEnd]; linarith
  have hP1 : ¬ (d0 + d1 + ε < phaseEnd [d0, d1, d2] 1) := by
    simp [phaseEnd]; linarith
  simp only [List.find?_cons, hP0, hP1, and_false, decide_False]
  by_cases h2 : phaseStart [d0, d1, d2] 2 ≤ d0 + d1 + ε ∧ d0 + d1 + ε < phaseEnd [d0, d1, d2] 2
  · simp [h2]
  · simp [h2]

/-- C8 (as stated, refuted): with phase durations 0 and 5 the interval of phase 0 is
empty, and elapsed time 0 resolves to phase index 1, not 0. -/
theorem phaseScheduler_zero_counterexample :
    activePhase [0, 5] 0 = some 1 ∧ activePhase [0, 5] 0 ≠ some 0 ∧
    ¬ (phaseStart [0, 5] 0 ≤ 0 ∧ (0 : ℚ) < phaseEnd [0, 5] 0) := by
  have h : activePhase [0, 5] 0 = some 1 := by
    simp [activePhase, phaseStart, phaseEnd, List.range, List.range.loop, List.find?]
  refine ⟨h, ?_, ?_⟩
  · rw [h]; simp
  · simp [phaseStart, phaseEnd]

/-- C8 (amended): for non-negative durations and elapsed time `t ≥ 0`: while `t` is
below the sum of all durations, phase `i` is the active phase exactly when
`sum(d0..d(i-1)) ≤ t < sum(d0..di)`; from the sum of all durations on, the scheduler
holds at the last phase; `t = 0` resolves to phase index 0 when `d0 > 0` or there is a
single phase; and with three phases `t = d0 + d1 + ε`, `ε > 0`, resolves to phase
index 2. -/
theorem phaseScheduler_intervals (durs : List ℚ) (t d0 d1 d2 ε : ℚ) (ds : List ℚ)
    (hnn : ∀ d ∈ durs, 0 ≤ d) (ht : 0 ≤ t) (h0 : 0 ≤ d0) (h1 : 0 ≤ d1) (hε : 0 < ε) :
    (t < durs.sum → ∀ i : Nat,
      (activePhase durs t = some i ↔ (phaseStart durs i ≤ t ∧ t < phaseEnd durs i))) ∧
    (durs ≠ [] → durs.sum ≤ t → activePhase durs t = some (durs.length - 1)) ∧
    ((0 < d0 ∨ ds = []) → activePhase (d0 :: ds) 0 = some 0) ∧
    activePhase [d0, d1, d2] (d0 + d1 + ε) = some 2 :=
  ⟨fun h i => activePhase_within durs hnn t ht h i,
    fun hne h => activePhase_hold durs hnn t hne h,
    fun h => activePhase_zero d0 ds h,
    activePhase_third d0 d1 d2 ε h0 h1 hε⟩

/-- C8 (amended) at the durations 5, 3, 2. -/
theorem phaseScheduler_intervals_witness :
    ((∀ d ∈ ([5, 3, 2] : List ℚ), 0 ≤ d) ∧ (0 : ℚ) ≤ 6 ∧ (0 : ℚ) ≤ 5 ∧ (0 : ℚ) ≤ 3
      ∧ (0 : ℚ) < 1) ∧
    (((6 : ℚ) < ([5, 3, 2] : List ℚ).sum → ∀ i : Nat,
      (activePhase [5, 3, 2] 6 = some i
        ↔ (phaseStart [5, 3, 2] i ≤ 6 ∧ (6 : ℚ) < phaseEnd [5, 3, 2] i))) ∧
    (([5, 3, 2] : List ℚ) ≠ [] → ([5, 3, 2] : List ℚ).sum ≤ 6
      → activePhase [5, 3, 2] 6 = some (([5, 3, 2] : List ℚ).length - 1)) ∧
    (((0 : ℚ) < 5 ∨ ([3, 2] : List ℚ) = []) → activePhase (5 :: [3, 2]) 0 = some 0) ∧
    activePhase [5, 3, 2] (5 + 3 + 1) = some 2) :=
  ⟨⟨by simp, by norm_num, by norm_num, by norm_num, by norm_num⟩,
    phaseScheduler_intervals [5, 3, 2] 6 5 3 2 1 [3, 2] (by simp) (by norm_num)
      (by norm_num) (by norm_num) (by norm_num)⟩

end Engine


/-! ### Styling -/

/-- C11: `UI.wrap` returns the string unchanged when colour is disabled or the string
contains a newline, and otherwise the string between `ESC[` code `m` and `ESC[0m`, which
is what `fmt.Sprintf` prints for the format `"\x1b[%sm%s\x1b[0m"`; `NewUI` enables colour
exactly when stdout is a terminal, `noColor` is off and `TERM` is not `dumb`, so a UI
built with `noColor = true` returns every styled string (bold, dim, red, green, yellow,
cyan) unchanged, whatever the environment. -/
theorem wrap_and_noColor (u : UI) (c s : Str) (T : UnicodeTables) (env : TermEnv)
    (out err : Str) (noColor quiet verbose : Bool) :
    ((u.colorEnabled = false ∨ '\n' ∈ s) → u.wrap c s = s) ∧
    (¬ (u.colorEnabled = false ∨ '\n' ∈ s) →
      u.wrap c s = [Char.ofNat 0x1b, '['] ++ c ++ ['m'] ++ s ++ [Char.ofNat 0x1b, '[', '0', 'm']) ∧
    sprintfGo T none "\x1b[%sm%s\x1b[0m".toList [.str c, .str s]
      = some ([Char.ofNat 0x1b, '['] ++ c ++ ['m'] ++ s ++ [Char.ofNat 0x1b, '[', '0', 'm']) ∧
    (NewUI env out err noColor quiet verbose).colorEnabled
      = (env.stdoutIsTTY && !noColor && (env.term != "dumb".toList)) ∧
    (NewUI env out err true quiet verbose).colorEnabled = false ∧
    ((NewUI env out err true quiet verbose).wrap c s = s ∧
      (NewUI env out err true quiet verbose).bold s = s ∧
      (NewUI env out err true quiet verbose).dim s = s ∧
      (NewUI env out err true quiet verbose).red s = s ∧
      (NewUI env out err true quiet verbose).green s = s ∧
      (NewUI env out err true quiet verbose).yellow s = s ∧
      (NewUI env out err true quiet verbose).cyan s = s) := by
  refine ⟨?_, ?_, ?_, rfl, ?_, ?_⟩
  · rintro (h | h)
    · simp [UI.wrap, h]
    · simp [UI.wrap, h]
  · intro h
    rw [not_or] at h
    have h1 : u.colorEnabled = true := by simpa using h.1
    simp [UI.wrap, h1, h.2]
  · simp [sprintfGo, fmtArg, Directive.pad, isDigit]
  · simp [NewUI]
  · simp [NewUI, UI.wrap, UI.bold, UI.dim, UI.red, UI.green, UI.yellow, UI.cyan]
end Synheart
